import Mathlib

/-!
Verification development for a chat reminder bot (single source file `bot.py`).

The embedding models:
* the SQLite-backed reminder store (`reminders` table) as a list of rows plus
  an AUTOINCREMENT counter (`DB`),
* the contact directory (`contacts` table) as a list of rows,
* the job queue of the bot framework (`run_once` with a name per reminder id)
  as a list of registered delayed callbacks (`Job`),
* absolute timestamps as integers (seconds since an epoch); an aware Python
  `datetime` denotes an absolute instant, `timedelta(minutes=k)` is `60*k`
  seconds, and `(a - b).total_seconds()` is integer subtraction,
* the textual ISO-8601 layer of the store (used by `load_future_reminders`,
  which compares and orders `remind_at` strings against `now.isoformat()`)
  by a separate calendar type `PyDateTime` with Python's `isoformat`
  serialization to byte lists and SQLite's `memcmp` text comparison.
-/

/-! ## Generic insertion sort with a boolean comparator (models SQL ORDER BY) -/
def insertBy {α : Type} (le : α → α → Bool) (x : α) : List α → List α
  | [] => [x]
  | y :: ys => if le x y then x :: y :: ys else y :: insertBy le x ys

def isortBy {α : Type} (le : α → α → Bool) : List α → List α
  | [] => []
  | x :: xs => insertBy le x (isortBy le xs)

/-! ## Data model: reminders, the persistent store, the job queue -/
/-- A row of the `reminders` table / the `Reminder` dataclass; `remind_at` is
the absolute instant in seconds. -/
structure Reminder where
  reminder_id : Nat
  creator_chat_id : Int
  target_chat_id : Int
  remind_at : Int
  message : String
  repeat_interval_minutes : Option Int
deriving DecidableEq

/-- The `reminders` table with its AUTOINCREMENT id sequence: rows in rowid
order, plus the next id to be assigned (AUTOINCREMENT never reuses ids). -/
structure DB where
  rows : List Reminder
  nextId : Nat
deriving DecidableEq

/-- A delayed callback registered with `application.job_queue.run_once`:
its `name` (the string `reminder-<id>` is keyed by the numeric id), the
`when` delay in seconds, and the `data` payload. -/
structure Job where
  name : Nat
  delay : Int
  data : Reminder
deriving DecidableEq

/-- `add_reminder`: INSERT a fresh row, return `lastrowid`. -/
def add_reminder (creator_chat_id target_chat_id : Int) (remind_at : Int)
    (message : String) (repeat_interval_minutes : Option Int) (db : DB) : DB × Nat :=
  (⟨db.rows ++ [⟨db.nextId, creator_chat_id, target_chat_id, remind_at, message,
      repeat_interval_minutes⟩], db.nextId + 1⟩, db.nextId)

/-- `update_reminder_time`: UPDATE remind_at WHERE id = reminder_id
(a no-op on the rows when the id is absent). -/
def update_reminder_time (reminder_id : Nat) (remind_at : Int) (db : DB) : DB :=
  ⟨db.rows.map (fun r => if r.reminder_id = reminder_id
      then { r with remind_at := remind_at } else r), db.nextId⟩

/-- `delete_reminder`: DELETE WHERE id = reminder_id. -/
def delete_reminder (reminder_id : Nat) (db : DB) : DB :=
  ⟨db.rows.filter (fun r => decide (r.reminder_id ≠ reminder_id)), db.nextId⟩

/-- `get_reminder`: SELECT ... WHERE id = ? then fetchone. -/
def get_reminder (reminder_id : Nat) (db : DB) : Option Reminder :=
  db.rows.find? (fun r => decide (r.reminder_id = reminder_id))

/-- `load_future_reminders(now)`: SELECT ... WHERE remind_at > ? ORDER BY
remind_at (on the instant model; the string-level refinement is settled
separately). -/
def load_future_reminders (now : Int) (db : DB) : List Reminder :=
  isortBy (fun a b => decide (a.remind_at ≤ b.remind_at))
    (db.rows.filter (fun r => decide (now < r.remind_at)))

/-- `load_user_reminders(chat_id)`: SELECT ... WHERE creator_chat_id = ?
ORDER BY remind_at. -/
def load_user_reminders (chat_id : Int) (db : DB) : List Reminder :=
  isortBy (fun a b => decide (a.remind_at ≤ b.remind_at))
    (db.rows.filter (fun r => decide (r.creator_chat_id = chat_id)))

/-- `is_admin`: nonzero configured ADMIN_CHAT_ID equal to the chat id. -/
def is_admin (adminId chat_id : Int) : Bool :=
  decide (adminId ≠ 0) && decide (chat_id = adminId)

/-- `validate_future`: remind_at > datetime.now(timezone.utc). -/
def validate_future (remind_at now : Int) : Bool :=
  decide (now < remind_at)

/-- An ASCII whitespace character removed by `str.strip()`. -/
def isSpaceChar (c : Char) : Bool :=
  decide (c = ' ') || decide (c = '\t') || decide (c = '\n') || decide (c = '\r')

/-- Python `str.strip()`: drop whitespace from both ends. -/
def pyStrip (s : String) : String :=
  String.mk (((s.data.dropWhile isSpaceChar).reverse.dropWhile isSpaceChar).reverse)

/-- `ensure_message`: strip, then None when empty. -/
def ensure_message (message : String) : Option String :=
  let cleaned := pyStrip message
  if cleaned = "" then none else some cleaned

/-- `schedule_reminder_job`: delay = remind_at - now (seconds); if delay <= 0
do nothing, otherwise register one callback named by the reminder id. -/
def schedule_reminder_job (now : Int) (jobs : List Job) (r : Reminder) : List Job :=
  let delay := r.remind_at - now
  if delay ≤ 0 then jobs
  else jobs ++ [⟨r.reminder_id, delay, r⟩]

/-- `create_reminder`: add_reminder then schedule_reminder_job with the fresh
id; returns the id. -/
def create_reminder (creator_chat_id target_chat_id : Int) (remind_at : Int)
    (message : String) (repeat_interval_minutes : Option Int) (now : Int)
    (db : DB) (jobs : List Job) : DB × List Job × Nat :=
  let res := add_reminder creator_chat_id target_chat_id remind_at message
    repeat_interval_minutes db
  let jobs2 := schedule_reminder_job now jobs
    ⟨res.2, creator_chat_id, target_chat_id, remind_at, message,
      repeat_interval_minutes⟩
  (res.1, jobs2, res.2)

/-- `send_reminder`: deliver, then either advance the recurring reminder
(next = remind_at + interval minutes, persist, re-arm) or delete the one-shot
row.  The guard is Python truthiness of `repeat_interval_minutes` (None and 0
are falsy). -/
def send_reminder (now : Int) (db : DB) (jobs : List Job) (r : Reminder) :
    DB × List Job :=
  match r.repeat_interval_minutes with
  | some k =>
    if k = 0 then (delete_reminder r.reminder_id db, jobs)
    else
      let next := r.remind_at + 60 * k
      (update_reminder_time r.reminder_id next db,
       schedule_reminder_job now jobs { r with remind_at := next })
  | none => (delete_reminder r.reminder_id db, jobs)

/-- `on_startup`: re-arm every future reminder loaded from the store.  The
code reads the clock once for the load and again inside each arming; the two
reads are the parameters `nowLoad` and `nowArm`. -/
def on_startup (nowLoad nowArm : Int) (db : DB) (jobs : List Job) : List Job :=
  (load_future_reminders nowLoad db).foldl (schedule_reminder_job nowArm) jobs

/-! ## Contact directory (`contacts` table) -/
/-- A row of the `contacts` table (chat_id is UNIQUE). -/
structure Contact where
  chat_id : Int
  name : String
deriving DecidableEq

/-- The contacts table in rowid order. -/
abbrev Directory := List Contact

/-- The comparison key computed by SQLite's `lower()` on both sides of the
name lookup: ASCII letters are folded to lower case, every other code point
is unchanged. -/
def nameKey (s : String) : List Nat :=
  s.data.map (fun c =>
    let n := c.toNat
    if 65 ≤ n ∧ n ≤ 90 then n + 32 else n)

/-- `upsert_contact`: INSERT ... ON CONFLICT(chat_id) DO UPDATE SET name.
An update keeps the row in place (same rowid); an insert appends. -/
def upsert_contact (chat_id : Int) (name : String) (dir : Directory) : Directory :=
  if dir.any (fun c => decide (c.chat_id = chat_id)) then
    dir.map (fun c => if c.chat_id = chat_id then { c with name := name } else c)
  else dir ++ [⟨chat_id, name⟩]

/-- `get_contact_by_name`: SELECT chat_id, name WHERE lower(name) = lower(?)
then fetchone (first row in table-scan order). -/
def get_contact_by_name (name : String) (dir : Directory) : Option (Int × String) :=
  (dir.find? (fun c => decide (nameKey c.name = nameKey name))).map
    (fun c => (c.chat_id, c.name))

/-! ## Command handler replies (user-visible rejection / confirmation texts) -/
def msg_past : String := "Дата должна быть в будущем."

def msg_empty : String := "Текст напоминания не может быть пустым."

def msg_bad_date : String :=
  "Не могу разобрать дату. Используй формат YYYY-MM-DD HH:MM (МСК)."

def msg_not_found : String := "Напоминание не найдено."

def msg_admin_only : String := "Эта команда доступна только администратору."

def msg_contact_missing : String :=
  "Контакт не найден. Проверь /contacts или попроси человека сделать /start."

def msg_interval_nan : String := "Интервал должен быть числом (в минутах)."

def msg_interval_pos : String := "Интервал должен быть больше нуля."

/-! ## Command handlers

Each handler is modelled after argument splitting: `remind_at` is the result
of `parse_datetime` (None on a parse failure), `interval` the result of
`int(...)` (None on ValueError).  The confirmation texts elide the formatted
local time, which the claims do not touch. -/
/-- `/remindme` handler body from the message-emptiness check on. -/
def remindme (chat_id : Int) (remind_at : Option Int) (rawMessage : String)
    (now : Int) (db : DB) (jobs : List Job) : DB × List Job × String :=
  match ensure_message rawMessage with
  | none => (db, jobs, msg_empty)
  | some message =>
    match remind_at with
    | none => (db, jobs, msg_bad_date)
    | some t =>
      if !validate_future t now then (db, jobs, msg_past)
      else
        let res := create_reminder chat_id chat_id t message none now db jobs
        (res.1, res.2.1, "Напоминание запланировано.")

/-- `/repeatme` handler body from the interval parse on. -/
def repeatme (chat_id : Int) (interval : Option Int) (remind_at : Option Int)
    (rawMessage : String) (now : Int) (db : DB) (jobs : List Job) :
    DB × List Job × String :=
  match interval with
  | none => (db, jobs, msg_interval_nan)
  | some k =>
    if k ≤ 0 then (db, jobs, msg_interval_pos)
    else
      match ensure_message rawMessage with
      | none => (db, jobs, msg_empty)
      | some message =>
        match remind_at with
        | none => (db, jobs, msg_bad_date)
        | some t =>
          if !validate_future t now then (db, jobs, msg_past)
          else
            let res := create_reminder chat_id chat_id t message (some k) now db jobs
            (res.1, res.2.1, "Повторяющееся напоминание создано.")

/-- `/remind` (admin-only, targets a named contact) from the admin check on. -/
def remind_other (adminId chat_id : Int) (name : String) (remind_at : Option Int)
    (rawMessage : String) (now : Int) (dir : Directory) (db : DB)
    (jobs : List Job) : DB × List Job × String :=
  if !is_admin adminId chat_id then (db, jobs, msg_admin_only)
  else
    match ensure_message rawMessage with
    | none => (db, jobs, msg_empty)
    | some message =>
      match get_contact_by_name name dir with
      | none => (db, jobs, msg_contact_missing)
      | some contact =>
        match remind_at with
        | none => (db, jobs, msg_bad_date)
        | some t =>
          if !validate_future t now then (db, jobs, msg_past)
          else
            let res := create_reminder chat_id contact.1 t message none now db jobs
            (res.1, res.2.1, "Напоминание для контакта запланировано.")

/-- `/repeat` (admin-only, recurring, targets a named contact) from the admin
check on. -/
def repeat_other (adminId chat_id : Int) (name : String) (interval : Option Int)
    (remind_at : Option Int) (rawMessage : String) (now : Int) (dir : Directory)
    (db : DB) (jobs : List Job) : DB × List Job × String :=
  if !is_admin adminId chat_id then (db, jobs, msg_admin_only)
  else
    match interval with
    | none => (db, jobs, msg_interval_nan)
    | some k =>
      if k ≤ 0 then (db, jobs, msg_interval_pos)
      else
        match ensure_message rawMessage with
        | none => (db, jobs, msg_empty)
        | some message =>
          match get_contact_by_name name dir with
          | none => (db, jobs, "Контакт не найден. Проверь /contacts.")
          | some contact =>
            match remind_at with
            | none => (db, jobs, msg_bad_date)
            | some t =>
              if !validate_future t now then (db, jobs, msg_past)
              else
                let res := create_reminder chat_id contact.1 t message (some k)
                  now db jobs
                (res.1, res.2.1, "Повторяющееся напоминание создано для контакта.")

/-- `/cancelme` handler body from the id parse on: only the creator reaches
the delete; everyone else gets the not-found reply and an unchanged store. -/
def cancelme (chat_id : Int) (reminder_id : Nat) (db : DB) : DB × String :=
  match get_reminder reminder_id db with
  | none => (db, msg_not_found)
  | some r =>
    if r.creator_chat_id ≠ chat_id then (db, msg_not_found)
    else (delete_reminder reminder_id db,
      "Напоминание #" ++ toString reminder_id ++ " отменено.")

/-- `/cancel` (admin-only) from the admin check on. -/
def cancel_any (adminId chat_id : Int) (reminder_id : Nat) (db : DB) :
    DB × String :=
  if !is_admin adminId chat_id then (db, msg_admin_only)
  else
    match get_reminder reminder_id db with
    | none => (db, msg_not_found)
    | some _ => (delete_reminder reminder_id db,
        "Напоминание #" ++ toString reminder_id ++ " отменено.")

/-! ## The textual timestamp layer (claim about `remind_at` strings)

`add_reminder` and `update_reminder_time` store `remind_at.isoformat()` and
`load_future_reminders` runs `WHERE remind_at > ?` / `ORDER BY remind_at`
against `now.isoformat()`: SQLite compares TEXT values bytewise (memcmp).
Every datetime this program writes or compares is UTC-aware
(`astimezone(timezone.utc)` / `datetime.now(timezone.utc)`), so `isoformat`
produces `YYYY-MM-DDTHH:MM:SS+00:00`, with `.ffffff` inserted before the
offset exactly when the microsecond field is nonzero. -/
/-- The broken-down fields of a UTC-aware Python datetime. -/
structure PyDateTime where
  year : Nat
  month : Nat
  day : Nat
  hour : Nat
  minute : Nat
  second : Nat
  micro : Nat
deriving DecidableEq

/-- Field ranges of a Python datetime (MINYEAR = 1, MAXYEAR = 9999). -/
def validDT (t : PyDateTime) : Bool :=
  decide (1 ≤ t.year) && decide (t.year ≤ 9999) &&
  decide (1 ≤ t.month) && decide (t.month ≤ 12) &&
  decide (1 ≤ t.day) && decide (t.day ≤ 31) &&
  decide (t.hour ≤ 23) && decide (t.minute ≤ 59) &&
  decide (t.second ≤ 59) && decide (t.micro ≤ 999999)

/-- Chronological order of two UTC-aware datetimes (Python `<` on aware
datetimes with equal offsets compares the broken-down fields
lexicographically). -/
def chronLt (a b : PyDateTime) : Bool :=
  decide (a.year < b.year) || (decide (a.year = b.year) &&
  (decide (a.month < b.month) || (decide (a.month = b.month) &&
  (decide (a.day < b.day) || (decide (a.day = b.day) &&
  (decide (a.hour < b.hour) || (decide (a.hour = b.hour) &&
  (decide (a.minute < b.minute) || (decide (a.minute = b.minute) &&
  (decide (a.second < b.second) || (decide (a.second = b.second) &&
  decide (a.micro < b.micro))))))))))))

/-- Zero-padded fixed-width decimal rendering of `n` (ASCII byte values),
most significant digit first. -/
def pad : Nat → Nat → List Nat
  | 0, _ => []
  | k + 1, n => (48 + n / 10 ^ k) :: pad k (n % 10 ^ k)

/-- Bytewise (memcmp) strict comparison of two byte lists, as SQLite compares
TEXT values: a strict prefix is smaller. -/
def lexLt : List Nat → List Nat → Bool
  | _, [] => false
  | [], _ :: _ => true
  | a :: as, b :: bs => decide (a < b) || (decide (a = b) && lexLt as bs)

/-- The bytes of `datetime.isoformat()` for a UTC-aware value: the date with
`-` (45), `T` (84), `:` (58), then `.` (46) and six microsecond digits only
when the microsecond is nonzero, then the offset `+00:00`
(43, 48, 48, 58, 48, 48). -/
def isoChars (t : PyDateTime) : List Nat :=
  pad 4 t.year ++ 45 :: (pad 2 t.month ++ 45 :: (pad 2 t.day ++
    84 :: (pad 2 t.hour ++ 58 :: (pad 2 t.minute ++ 58 :: (pad 2 t.second ++
      ((if t.micro = 0 then [] else 46 :: pad 6 t.micro) ++
        [43, 48, 48, 58, 48, 48]))))))

/-- The constant offset suffix `+00:00`. -/
def tzSuffix : List Nat := [43, 48, 48, 58, 48, 48]

/-- A `reminders` row as persisted, with its `remind_at` kept as the
broken-down datetime whose `isoformat` bytes are the stored TEXT. -/
structure StoredReminder where
  reminder_id : Nat
  creator_chat_id : Int
  target_chat_id : Int
  remind_at : PyDateTime
  message : String
  repeat_interval_minutes : Option Int
deriving DecidableEq

/-- `load_future_reminders` as the program runs it: SQLite filters
`remind_at > ?` and sorts `ORDER BY remind_at` by bytewise comparison of the
stored `isoformat` TEXT against `now.isoformat()`. -/
def load_future_by_string (now : PyDateTime) (rows : List StoredReminder) :
    List StoredReminder :=
  isortBy (fun r₁ r₂ => !lexLt (isoChars r₂.remind_at) (isoChars r₁.remind_at))
    (rows.filter (fun r => lexLt (isoChars now) (isoChars r.remind_at)))

/-- The datetime-based specification of `list_future(now)`: keep the rows
whose instant is chronologically after `now`, ascending chronologically. -/
def load_future_by_datetime (now : PyDateTime) (rows : List StoredReminder) :
    List StoredReminder :=
  isortBy (fun r₁ r₂ => !chronLt r₂.remind_at r₁.remind_at)
    (rows.filter (fun r => chronLt now r.remind_at))

/-! ## The scheduler as a transition system (create / cancel / fire / restart)

A state is the persistent store plus the process-local job queue.  `fire`
consumes an armed callback (the framework removes a fired `run_once` job) and
runs `send_reminder` on its payload; `restart` models a process stop (the job
queue is not persisted, so it empties) followed by `on_startup`. -/
structure SysState where
  db : DB
  jobs : List Job
deriving DecidableEq

/-- The initial state: empty store, AUTOINCREMENT starts at 1, no jobs. -/
def initState : SysState := ⟨⟨[], 1⟩, []⟩

inductive Step : SysState → SysState → Prop where
  | create (now creator target t : Int) (msg : String) (rep : Option Int)
      (s : SysState) :
      Step s ⟨(create_reminder creator target t msg rep now s.db s.jobs).1,
              (create_reminder creator target t msg rep now s.db s.jobs).2.1⟩
  | cancel (rid : Nat) (s : SysState) :
      Step s ⟨delete_reminder rid s.db, s.jobs⟩
  | fire (now : Int) (j : Job) (s : SysState) (hj : j ∈ s.jobs) :
      Step s ⟨(send_reminder now s.db (s.jobs.erase j) j.data).1,
              (send_reminder now s.db (s.jobs.erase j) j.data).2⟩
  | restart (now : Int) (s : SysState) :
      Step s ⟨s.db, on_startup now now s.db []⟩

def Reachable (s : SysState) : Prop :=
  Relation.ReflTransGen Step initState s

/-- The inductive invariant: row ids and job names are pairwise distinct,
all below the id sequence, and each job's payload carries its own name. -/
def SchedInv (s : SysState) : Prop :=
  s.db.rows.Pairwise (fun a b => a.reminder_id ≠ b.reminder_id)
  ∧ (∀ r ∈ s.db.rows, r.reminder_id < s.db.nextId)
  ∧ s.jobs.Pairwise (fun a b => a.name ≠ b.name)
  ∧ (∀ j ∈ s.jobs, j.name < s.db.nextId)
  ∧ (∀ j ∈ s.jobs, j.data.reminder_id = j.name)

/-! ## Concrete fixtures used by witnesses and counterexamples -/
def c1_r : Reminder := ⟨1, 7, 7, 1000, "w", some 30⟩

def c1_db : DB := ⟨[c1_r], 2⟩

def c2_dir : Directory := [⟨3, "ann"⟩]

def c2_db : DB := ⟨[], 1⟩

def c3_r : Reminder := ⟨4, 8, 8, 500, "m", none⟩

def c3_db : DB := ⟨[c3_r], 5⟩

def c4_r : Reminder := ⟨5, 1, 1, 1000, "hi", some 10⟩

def c4_db : DB := ⟨[], 6⟩

def c5_db : DB := ⟨[⟨2, 1, 1, 100, "a", none⟩], 3⟩

def c6_past : Reminder := ⟨1, 1, 1, 3, "p", none⟩

def c6_fut : Reminder := ⟨2, 1, 1, 9, "f", none⟩

def c7_db : DB := ⟨[⟨1, 1, 1, 100, "a", none⟩, ⟨2, 1, 1, -5, "b", none⟩], 3⟩

def c8_dir : Directory :=
  upsert_contact 2 "Bob" (upsert_contact 2 "x" (upsert_contact 1 "bob" []))

def c8w_dir : Directory := [⟨1, "zed"⟩]

def c9_s1 : SysState :=
  ⟨(create_reminder 1 1 50 "hi" none 0 initState.db initState.jobs).1,
   (create_reminder 1 1 50 "hi" none 0 initState.db initState.jobs).2.1⟩

def c10_t1 : PyDateTime := ⟨2024, 12, 31, 6, 0, 0, 0⟩

def c10_t2 : PyDateTime := ⟨2024, 12, 31, 6, 0, 0, 123456⟩

def c10_rows : List StoredReminder :=
  [⟨1, 1, 1, ⟨2025, 1, 1, 0, 0, 0, 0⟩, "a", none⟩,
   ⟨2, 1, 1, ⟨2024, 1, 1, 0, 0, 0, 0⟩, "b", none⟩]

theorem insertBy_perm {α : Type} (le : α → α → Bool) (x : α) (l : List α) :
    List.Perm (insertBy le x l) (x :: l) := by
  induction l with
  | nil => simp [insertBy]
  | cons y ys ih =>
    by_cases h : le x y
    · simp [insertBy, h]
    · simp only [insertBy, h, if_neg]
      exact ((ih.cons y).trans (List.Perm.swap x y ys)).symm.symm

theorem isortBy_perm {α : Type} (le : α → α → Bool) (l : List α) :
    List.Perm (isortBy le l) l := by
  induction l with
  | nil => simp [isortBy]
  | cons x xs ih =>
    exact (insertBy_perm le x (isortBy le xs)).trans (ih.cons x)

theorem mem_isortBy {α : Type} (le : α → α → Bool) (l : List α) (a : α) :
    a ∈ isortBy le l ↔ a ∈ l :=
  (isortBy_perm le l).mem_iff

theorem insertBy_congr {α : Type} (le₁ le₂ : α → α → Bool) (x : α) (l : List α)
    (h : ∀ y ∈ l, le₁ x y = le₂ x y) : insertBy le₁ x l = insertBy le₂ x l := by
  induction l with
  | nil => rfl
  | cons y ys ih =>
    have hy := h y (by simp)
    simp only [insertBy, hy]
    by_cases h2 : le₂ x y
    · simp [h2]
    · simp only [h2, if_neg, Bool.false_eq_true, not_false_iff]
      rw [ih (fun z hz => h z (by simp [hz]))]

theorem isortBy_congr {α : Type} (le₁ le₂ : α → α → Bool) (l : List α)
    (h : ∀ a ∈ l, ∀ b ∈ l, le₁ a b = le₂ a b) : isortBy le₁ l = isortBy le₂ l := by
  induction l with
  | nil => rfl
  | cons x xs ih =>
    have hrec : isortBy le₁ xs = isortBy le₂ xs :=
      ih (fun a ha b hb => h a (by simp [ha]) b (by simp [hb]))
    simp only [isortBy, hrec]
    apply insertBy_congr
    intro y hy
    have : y ∈ xs := (mem_isortBy le₂ xs y).mp hy
    exact h x (by simp) y (by simp [this])

theorem pad_length (k n : Nat) : (pad k n).length = k := by
  induction k generalizing n with
  | zero => rfl
  | succ k ih => simp [pad, ih]

theorem lexLt_irrefl (l : List Nat) : lexLt l l = false := by
  induction l with
  | nil => rfl
  | cons a as ih => simp [lexLt, ih]

theorem lexLt_append (xs ys s₁ s₂ : List Nat) (h : xs.length = ys.length) :
    lexLt (xs ++ s₁) (ys ++ s₂) =
      (lexLt xs ys || (decide (xs = ys) && lexLt s₁ s₂)) := by
  induction xs generalizing ys with
  | nil =>
    cases ys with
    | nil => simp [lexLt]
    | cons b bs => simp at h
  | cons a as ih =>
    cases ys with
    | nil => simp at h
    | cons b bs =>
      have h' : as.length = bs.length := by simpa using h
      rcases Nat.lt_trichotomy a b with hab | hab | hab
      · have h1 : a ≠ b := Nat.ne_of_lt hab
        simp [lexLt, hab, h1]
      · subst hab
        simp only [List.cons_append, lexLt, lt_irrefl, decide_False,
          decide_True, Bool.false_or, Bool.true_and, List.cons.injEq, true_and,
          List.append_eq]
        rw [ih bs h']
      · have h1 : ¬ a < b := by omega
        have h2 : a ≠ b := by omega
        simp [lexLt, h1, h2]

theorem div_lt_of_div_lt {a b m : Nat} (h : a / m < b / m) : a < b := by
  by_contra hc
  push_neg at hc
  have hle : b / m ≤ a / m := Nat.div_le_div_right hc
  omega

theorem lt_iff_mod_lt {a b m : Nat} (_hm : 0 < m) (h : a / m = b / m) :
    a < b ↔ a % m < b % m := by
  have h1 : a = m * (a / m) + a % m := (Nat.div_add_mod a m).symm
  have h2 : b = m * (a / m) + b % m := by
    rw [h]; exact (Nat.div_add_mod b m).symm
  omega

theorem pad_lt (k : Nat) : ∀ a b : Nat, a < 10 ^ k → b < 10 ^ k →
    lexLt (pad k a) (pad k b) = decide (a < b) := by
  induction k with
  | zero =>
    intro a b ha hb
    have ha0 : a = 0 := by simpa using ha
    have hb0 : b = 0 := by simpa using hb
    subst ha0; subst hb0
    rfl
  | succ k ih =>
    intro a b ha hb
    have hm : 0 < 10 ^ k := Nat.pos_pow_of_pos k (by norm_num)
    have hma : a % 10 ^ k < 10 ^ k := Nat.mod_lt a hm
    have hmb : b % 10 ^ k < 10 ^ k := Nat.mod_lt b hm
    simp only [pad, lexLt]
    rcases Nat.lt_trichotomy (a / 10 ^ k) (b / 10 ^ k) with h | h | h
    · have hab : a < b := div_lt_of_div_lt h
      have h1 : 48 + a / 10 ^ k < 48 + b / 10 ^ k := by omega
      simp [h1, hab]
    · have heq : 48 + a / 10 ^ k = 48 + b / 10 ^ k := by omega
      have hiff := lt_iff_mod_lt hm h
      have := ih (a % 10 ^ k) (b % 10 ^ k) hma hmb
      simp only [heq, lt_irrefl, decide_False, decide_True, Bool.false_or,
        Bool.true_and, this]
      exact decide_eq_decide.mpr hiff.symm
    · have hab : ¬ a < b := by
        have := div_lt_of_div_lt h
        omega
      have h1 : ¬ 48 + a / 10 ^ k < 48 + b / 10 ^ k := by omega
      have h2 : ¬ 48 + a / 10 ^ k = 48 + b / 10 ^ k := by omega
      simp [h1, h2, hab]

theorem pad_eq_iff (k : Nat) : ∀ a b : Nat, a < 10 ^ k → b < 10 ^ k →
    (pad k a = pad k b ↔ a = b) := by
  induction k with
  | zero =>
    intro a b ha hb
    have ha0 : a = 0 := by simpa using ha
    have hb0 : b = 0 := by simpa using hb
    subst ha0; subst hb0
    simp
  | succ k ih =>
    intro a b ha hb
    have hm : 0 < 10 ^ k := Nat.pos_pow_of_pos k (by norm_num)
    have hma : a % 10 ^ k < 10 ^ k := Nat.mod_lt a hm
    have hmb : b % 10 ^ k < 10 ^ k := Nat.mod_lt b hm
    simp only [pad, List.cons.injEq, ih (a % 10 ^ k) (b % 10 ^ k) hma hmb]
    constructor
    · rintro ⟨hq, hr⟩
      have hq' : a / 10 ^ k = b / 10 ^ k := by omega
      have h1 : a = 10 ^ k * (a / 10 ^ k) + a % 10 ^ k := (Nat.div_add_mod a (10 ^ k)).symm
      have h2 : b = 10 ^ k * (a / 10 ^ k) + b % 10 ^ k := by
        rw [hq']; exact (Nat.div_add_mod b (10 ^ k)).symm
      omega
    · rintro rfl
      exact ⟨rfl, rfl⟩

theorem pad_step (K a b : Nat) (restA restB : List Nat)
    (ha : a < 10 ^ K) (hb : b < 10 ^ K) :
    lexLt (pad K a ++ restA) (pad K b ++ restB) =
      (decide (a < b) || (decide (a = b) && lexLt restA restB)) := by
  rw [lexLt_append _ _ _ _ (by rw [pad_length, pad_length])]
  rw [pad_lt K a b ha hb]
  have : decide (pad K a = pad K b) = decide (a = b) :=
    decide_eq_decide.mpr (pad_eq_iff K a b ha hb)
  rw [this]

theorem lexLt_cons_same (c : Nat) (s₁ s₂ : List Nat) :
    lexLt (c :: s₁) (c :: s₂) = lexLt s₁ s₂ := by
  simp [lexLt]

theorem frac_step (ua ub : Nat) (hua : ua ≤ 999999) (hub : ub ≤ 999999) :
    lexLt ((if ua = 0 then [] else 46 :: pad 6 ua) ++ tzSuffix)
          ((if ub = 0 then [] else 46 :: pad 6 ub) ++ tzSuffix) =
      decide (ua < ub) := by
  by_cases h1 : ua = 0 <;> by_cases h2 : ub = 0
  · subst h1; subst h2
    simp [lexLt_irrefl]
  · subst h1
    have : decide (0 < ub) = true := by
      simp only [decide_eq_true_eq]
      omega
    simp only [if_pos rfl, if_neg h2, List.nil_append, List.cons_append, this]
    rfl
  · subst h2
    simp only [if_neg h1, if_pos rfl, List.nil_append, List.cons_append]
    have : decide (ua < 0) = false := by simp
    rw [this]
    rfl
  · simp only [if_neg h1, if_neg h2, List.cons_append, lexLt_cons_same]
    rw [pad_step 6 ua ub tzSuffix tzSuffix (by omega) (by omega)]
    rw [lexLt_irrefl]
    cases hd : decide (ua < ub) <;> simp

/-- Bytewise order of the serialized timestamps coincides with chronological
order, for every pair of field-valid UTC datetimes. -/
theorem isoChars_lt_eq_chronLt (a b : PyDateTime)
    (ha : validDT a = true) (hb : validDT b = true) :
    lexLt (isoChars a) (isoChars b) = chronLt a b := by
  simp only [validDT, Bool.and_eq_true, decide_eq_true_eq] at ha hb
  obtain ⟨⟨⟨⟨⟨⟨⟨⟨⟨_, hy⟩, _⟩, hmo⟩, _⟩, hd⟩, hh⟩, hmi⟩, hs⟩, hus⟩ := ha
  obtain ⟨⟨⟨⟨⟨⟨⟨⟨⟨_, hy'⟩, _⟩, hmo'⟩, _⟩, hd'⟩, hh'⟩, hmi'⟩, hs'⟩, hus'⟩ := hb
  simp only [isoChars]
  rw [pad_step 4 _ _ _ _ (by omega) (by omega), lexLt_cons_same]
  rw [pad_step 2 _ _ _ _ (by omega) (by omega), lexLt_cons_same]
  rw [pad_step 2 _ _ _ _ (by omega) (by omega), lexLt_cons_same]
  rw [pad_step 2 _ _ _ _ (by omega) (by omega), lexLt_cons_same]
  rw [pad_step 2 _ _ _ _ (by omega) (by omega), lexLt_cons_same]
  rw [pad_step 2 _ _ _ _ (by omega) (by omega)]
  rw [show ([43, 48, 48, 58, 48, 48] : List Nat) = tzSuffix from rfl]
  rw [frac_step _ _ hus hus']
  rfl

theorem mem_schedule (now : Int) (jobs : List Job) (r : Reminder) (j : Job)
    (hj : j ∈ schedule_reminder_job now jobs r) :
    j ∈ jobs ∨ (j.name = r.reminder_id ∧ j.data = r ∧
      j.delay = r.remind_at - now) := by
  unfold schedule_reminder_job at hj
  by_cases h : r.remind_at - now ≤ 0
  · simp only [h, if_pos] at hj
    exact Or.inl hj
  · simp only [h, if_neg, not_false_iff, List.mem_append,
      List.mem_singleton] at hj
    rcases hj with hj | hj
    · exact Or.inl hj
    · subst hj
      exact Or.inr ⟨rfl, rfl, rfl⟩

theorem schedule_pairwise (now : Int) (jobs : List Job) (r : Reminder)
    (hpw : jobs.Pairwise (fun a b => a.name ≠ b.name))
    (hfresh : ∀ j ∈ jobs, j.name ≠ r.reminder_id) :
    (schedule_reminder_job now jobs r).Pairwise (fun a b => a.name ≠ b.name) := by
  unfold schedule_reminder_job
  by_cases h : r.remind_at - now ≤ 0
  · simpa [h]
  · simp only [h, if_neg, not_false_iff]
    refine List.pairwise_append.mpr ⟨hpw, List.pairwise_singleton _ _, ?_⟩
    intro a ha b hb
    simp only [List.mem_singleton] at hb
    subst hb
    exact hfresh a ha

theorem foldl_schedule_future (now : Int) :
    ∀ (l : List Reminder) (jobs : List Job),
      (∀ r ∈ l, now < r.remind_at) →
      l.foldl (schedule_reminder_job now) jobs =
        jobs ++ l.map (fun r => (⟨r.reminder_id, r.remind_at - now, r⟩ : Job)) := by
  intro l
  induction l with
  | nil => intro jobs _; simp
  | cons r rs ih =>
    intro jobs hall
    have hr : now < r.remind_at := hall r (by simp)
    have hsch : schedule_reminder_job now jobs r =
        jobs ++ [⟨r.reminder_id, r.remind_at - now, r⟩] := by
      unfold schedule_reminder_job
      have : ¬ r.remind_at - now ≤ 0 := by omega
      simp [this]
    simp only [List.foldl_cons, hsch,
      ih _ (fun x hx => hall x (by simp [hx])), List.map_cons]
    simp

theorem mem_load_future (now : Int) (db : DB) (r : Reminder) :
    r ∈ load_future_reminders now db ↔ r ∈ db.rows ∧ now < r.remind_at := by
  unfold load_future_reminders
  rw [mem_isortBy]
  simp [List.mem_filter]

/-- With a single clock instant, startup arms exactly the loaded reminders,
each as a job named by its id with delay `remind_at - now`. -/
theorem on_startup_eq_map (now : Int) (db : DB) :
    on_startup now now db [] = (load_future_reminders now db).map
      (fun r => (⟨r.reminder_id, r.remind_at - now, r⟩ : Job)) := by
  unfold on_startup
  rw [foldl_schedule_future now (load_future_reminders now db) []
    (fun r hr => ((mem_load_future now db r).mp hr).2)]
  simp

theorem pairwise_name_erase (jobs : List Job) (j : Job) (hj : j ∈ jobs)
    (hpw : jobs.Pairwise (fun a b => a.name ≠ b.name)) :
    (jobs.erase j).Pairwise (fun a b => a.name ≠ b.name) ∧
      ∀ a ∈ jobs.erase j, a.name ≠ j.name := by
  have hperm : List.Perm jobs (j :: jobs.erase j) := List.perm_cons_erase hj
  have hcons : (j :: jobs.erase j).Pairwise (fun a b => a.name ≠ b.name) :=
    (hperm.pairwise_iff (fun h => Ne.symm h)).mp hpw
  rcases List.pairwise_cons.mp hcons with ⟨hhead, htail⟩
  exact ⟨htail, fun a ha => Ne.symm (hhead a ha)⟩

theorem step_inv (s s' : SysState) (hstep : Step s s') (hinv : SchedInv s) :
    SchedInv s' := by
  obtain ⟨hrowpw, hrowlt, hjobpw, hjoblt, hjobdata⟩ := hinv
  cases hstep with
  | create now creator target t msg rep =>
    refine ⟨?_, ?_, ?_, ?_, ?_⟩
    · show (s.db.rows ++
          [(⟨s.db.nextId, creator, target, t, msg, rep⟩ : Reminder)]).Pairwise
        (fun a b => a.reminder_id ≠ b.reminder_id)
      refine List.pairwise_append.mpr ⟨hrowpw, List.pairwise_singleton _ _, ?_⟩
      intro a ha b hb
      simp only [List.mem_singleton] at hb
      subst hb
      have := hrowlt a ha
      show a.reminder_id ≠ s.db.nextId
      omega
    · show ∀ r ∈ s.db.rows ++
          [(⟨s.db.nextId, creator, target, t, msg, rep⟩ : Reminder)],
        r.reminder_id < s.db.nextId + 1
      intro r hr
      simp only [List.mem_append, List.mem_singleton] at hr
      rcases hr with hr | hr
      · have := hrowlt r hr; omega
      · subst hr
        show s.db.nextId < s.db.nextId + 1
        omega
    · refine schedule_pairwise _ _ _ hjobpw ?_
      intro jb hjb
      have := hjoblt jb hjb
      show jb.name ≠ s.db.nextId
      omega
    · intro jb hjb
      show jb.name < s.db.nextId + 1
      rcases mem_schedule _ _ _ _ hjb with h | ⟨h, _, _⟩
      · have := hjoblt jb h; omega
      · rw [h]
        show s.db.nextId < s.db.nextId + 1
        omega
    · intro jb hjb
      rcases mem_schedule _ _ _ _ hjb with h | ⟨h1, h2, _⟩
      · exact hjobdata jb h
      · rw [h2, h1]
  | cancel rid =>
    refine ⟨?_, ?_, hjobpw, hjoblt, hjobdata⟩
    · exact List.Pairwise.sublist (List.filter_sublist _) hrowpw
    · intro r hr
      exact hrowlt r (List.mem_of_mem_filter hr)
  | fire now j s2 hj =>
    obtain ⟨hpw1, hne1⟩ := pairwise_name_erase s.jobs j hj hjobpw
    have hmem1 : ∀ a ∈ s.jobs.erase j, a ∈ s.jobs :=
      fun a ha => List.mem_of_mem_erase ha
    have hdj : j.data.reminder_id = j.name := hjobdata j hj
    rcases hrep : j.data.repeat_interval_minutes with _ | k
    · simp only [send_reminder, hrep]
      refine ⟨?_, ?_, hpw1, ?_, ?_⟩
      · exact List.Pairwise.sublist (List.filter_sublist _) hrowpw
      · intro r hr
        exact hrowlt r (List.mem_of_mem_filter hr)
      · intro a ha; exact hjoblt a (hmem1 a ha)
      · intro a ha; exact hjobdata a (hmem1 a ha)
    · by_cases hk : k = 0
      · simp only [send_reminder, hrep, hk, if_pos]
        refine ⟨?_, ?_, hpw1, ?_, ?_⟩
        · exact List.Pairwise.sublist (List.filter_sublist _) hrowpw
        · intro r hr
          exact hrowlt r (List.mem_of_mem_filter hr)
        · intro a ha; exact hjoblt a (hmem1 a ha)
        · intro a ha; exact hjobdata a (hmem1 a ha)
      · simp only [send_reminder, hrep, hk, if_neg, not_false_iff]
        have hid : ∀ r : Reminder,
            ((if r.reminder_id = j.data.reminder_id
              then { r with remind_at := j.data.remind_at + 60 * k }
              else r) : Reminder).reminder_id = r.reminder_id := by
          intro r; split <;> rfl
        refine ⟨?_, ?_, ?_, ?_, ?_⟩
        · simp only [update_reminder_time]
          rw [List.pairwise_map]
          refine hrowpw.imp ?_
          intro a b hab
          rw [hid a, hid b]
          exact hab
        · simp only [update_reminder_time]
          intro r hr
          rcases List.mem_map.mp hr with ⟨r0, hr0, hr0eq⟩
          rw [← hr0eq, hid r0]
          exact hrowlt r0 hr0
        · refine schedule_pairwise _ _ _ hpw1 ?_
          intro a ha
          have : a.name ≠ j.name := hne1 a ha
          simpa [hdj] using this
        · intro a ha
          rcases mem_schedule _ _ _ _ ha with h | ⟨h1, _, _⟩
          · exact hjoblt a (hmem1 a h)
          · rw [h1]
            simp only [hdj]
            exact hjoblt j hj
        · intro a ha
          rcases mem_schedule _ _ _ _ ha with h | ⟨h1, h2, _⟩
          · exact hjobdata a (hmem1 a h)
          · rw [h2, h1]
  | restart now =>
    refine ⟨hrowpw, hrowlt, ?_, ?_, ?_⟩
    · rw [on_startup_eq_map]
      rw [List.pairwise_map]
      have hfilt : (s.db.rows.filter
          (fun r => decide (now < r.remind_at))).Pairwise
          (fun a b => a.reminder_id ≠ b.reminder_id) :=
        List.Pairwise.sublist (List.filter_sublist _) hrowpw
      exact ((isortBy_perm _ _).pairwise_iff
        (fun h => Ne.symm h)).mpr hfilt
    · rw [on_startup_eq_map]
      intro jb hjb
      rcases List.mem_map.mp hjb with ⟨r, hr, hreq⟩
      have := hrowlt r ((mem_load_future now s.db r).mp hr).1
      rw [← hreq]
      exact this
    · rw [on_startup_eq_map]
      intro jb hjb
      rcases List.mem_map.mp hjb with ⟨r, _, hreq⟩
      rw [← hreq]

theorem inv_initState : SchedInv initState := by
  refine ⟨?_, ?_, ?_, ?_, ?_⟩ <;> simp [initState, SchedInv]

theorem reachable_inv (s : SysState) (hs : Reachable s) : SchedInv s := by
  induction hs with
  | refl => exact inv_initState
  | tail _ hstep ih => exact step_inv _ _ hstep ih

theorem pairwise_name_filter_le_one (l : List Job)
    (hpw : l.Pairwise (fun a b => a.name ≠ b.name)) (i : Nat) :
    (l.filter (fun j => decide (j.name = i))).length ≤ 1 := by
  induction l with
  | nil => simp
  | cons j js ih =>
    rcases List.pairwise_cons.mp hpw with ⟨hhead, htail⟩
    by_cases h : j.name = i
    · have hnil : js.filter (fun j => decide (j.name = i)) = [] := by
        apply List.filter_eq_nil_iff.mpr
        intro b hb
        have := hhead b hb
        simp only [decide_eq_true_eq]
        omega
      simp [List.filter_cons, h, hnil]
    · simpa [List.filter_cons, h] using ih htail

theorem find_after_update (rows : List Reminder) (rid : Nat) (t : Int) :
    (rows.map (fun r => if r.reminder_id = rid
        then { r with remind_at := t } else r)).find?
      (fun r => decide (r.reminder_id = rid)) =
    (rows.find? (fun r => decide (r.reminder_id = rid))).map
      (fun r => { r with remind_at := t }) := by
  induction rows with
  | nil => rfl
  | cons r rs ih =>
    by_cases h : r.reminder_id = rid
    · simp [List.find?_cons, h]
    · simp [List.find?_cons, h, ih]

theorem get_reminder_update (rid : Nat) (t : Int) (db : DB) :
    get_reminder rid (update_reminder_time rid t db) =
      (get_reminder rid db).map (fun r => { r with remind_at := t }) := by
  simp only [get_reminder, update_reminder_time]
  exact find_after_update db.rows rid t

/-! ## Directory lemmas for the double-upsert behaviour -/
theorem mem_upsert (cid : Int) (n : String) (dir : Directory) (c : Contact)
    (hc : c ∈ upsert_contact cid n dir) :
    (c.chat_id = cid ∧ c.name = n) ∨ (c ∈ dir ∧ c.chat_id ≠ cid) := by
  unfold upsert_contact at hc
  by_cases h : dir.any (fun c => decide (c.chat_id = cid))
  · simp only [h, if_pos] at hc
    rcases List.mem_map.mp hc with ⟨c0, hc0, hceq⟩
    by_cases hcid : c0.chat_id = cid
    · left
      rw [← hceq]
      simp [hcid]
    · right
      rw [← hceq]
      simp only [hcid, if_neg, not_false_iff]
      exact ⟨hc0, hcid⟩
  · simp [h] at hc
    rcases hc with hc | hc
    · right
      refine ⟨hc, ?_⟩
      intro hcontra
      have : dir.any (fun c => decide (c.chat_id = cid)) = true :=
        List.any_eq_true.mpr ⟨c, hc, by simp [hcontra]⟩
      exact absurd this (by simpa using h)
    · left
      subst hc
      exact ⟨rfl, rfl⟩

theorem upsert_upsert (cid : Int) (n₁ n₂ : String) (dir : Directory) :
    upsert_contact cid n₂ (upsert_contact cid n₁ dir) =
      upsert_contact cid n₂ dir := by
  by_cases h : dir.any (fun c => decide (c.chat_id = cid))
  · have h1 : upsert_contact cid n₁ dir =
        dir.map (fun c => if c.chat_id = cid then { c with name := n₁ } else c) := by
      simp [upsert_contact, h]
    have hany : (dir.map (fun c => if c.chat_id = cid
        then { c with name := n₁ } else c)).any
        (fun c => decide (c.chat_id = cid)) = true := by
      rcases List.any_eq_true.mp h with ⟨c, hc, hcp⟩
      refine List.any_eq_true.mpr ⟨if c.chat_id = cid
        then { c with name := n₁ } else c, List.mem_map_of_mem _ hc, ?_⟩
      simp only [decide_eq_true_eq] at hcp
      simp [hcp]
    rw [h1]
    simp only [upsert_contact, hany, if_pos, h]
    rw [List.map_map]
    apply List.map_congr_left
    intro c _
    by_cases hc : c.chat_id = cid <;> simp [hc]
  · have h1 : upsert_contact cid n₁ dir = dir ++ [⟨cid, n₁⟩] := by
      simp [upsert_contact, h]
    have hany : (dir ++ [(⟨cid, n₁⟩ : Contact)]).any
        (fun c => decide (c.chat_id = cid)) = true := by
      refine List.any_eq_true.mpr ⟨⟨cid, n₁⟩, by simp, by simp⟩
    rw [h1]
    simp only [upsert_contact, hany, if_pos, h, if_neg, not_false_iff]
    rw [List.map_append]
    have h2 : ∀ c ∈ dir, (if c.chat_id = cid
        then ({ c with name := n₂ } : Contact) else c) = c := by
      intro c hc
      have : c.chat_id ≠ cid := by
        intro hcontra
        exact absurd (List.any_eq_true.mpr ⟨c, hc, decide_eq_true hcontra⟩) h
      simp [this]
    have hmap : dir.map (fun c => if c.chat_id = cid
        then ({ c with name := n₂ } : Contact) else c) = dir := by
      trans (dir.map (fun c => c))
      · exact List.map_congr_left h2
      · exact List.map_id' dir
    rw [hmap]
    simp

theorem find_map_upd (cid : Int) (n₂ : String) (dir : Directory)
    (h2 : ∀ c ∈ dir, c.chat_id ≠ cid → nameKey c.name ≠ nameKey n₂)
    (hany : dir.any (fun c => decide (c.chat_id = cid)) = true) :
    (dir.map (fun c => if c.chat_id = cid
        then { c with name := n₂ } else c)).find?
      (fun c => decide (nameKey c.name = nameKey n₂)) = some ⟨cid, n₂⟩ := by
  induction dir with
  | nil => simp at hany
  | cons c cs ih =>
    by_cases hc : c.chat_id = cid
    · have hfc : (if c.chat_id = cid
          then ({ c with name := n₂ } : Contact) else c) = ⟨cid, n₂⟩ := by
        cases c
        simp_all
      simp only [List.map_cons, hfc]
      rw [List.find?_cons_of_pos _ (by simp)]
    · have hne : nameKey c.name ≠ nameKey n₂ := h2 c (by simp) hc
      have hany' : cs.any (fun c => decide (c.chat_id = cid)) = true := by
        rcases List.any_eq_true.mp hany with ⟨x, hx, hxp⟩
        simp only [List.mem_cons] at hx
        rcases hx with hx | hx
        · subst hx
          simp [hc] at hxp
        · exact List.any_eq_true.mpr ⟨x, hx, hxp⟩
      simp only [List.map_cons, hc, if_neg, not_false_iff]
      rw [List.find?_cons_of_neg _ (by simpa using hne)]
      exact ih (fun x hx hxc => h2 x (by simp [hx]) hxc) hany'

theorem find_append_new (cid : Int) (n₂ : String) (dir : Directory)
    (hall : ∀ c ∈ dir, nameKey c.name ≠ nameKey n₂) :
    (dir ++ [(⟨cid, n₂⟩ : Contact)]).find?
      (fun c => decide (nameKey c.name = nameKey n₂)) = some ⟨cid, n₂⟩ := by
  induction dir with
  | nil => simp
  | cons c cs ih =>
    have hne : nameKey c.name ≠ nameKey n₂ := hall c (by simp)
    rw [List.cons_append, List.find?_cons_of_neg _ (by simpa using hne)]
    exact ih (fun x hx => hall x (by simp [hx]))

theorem lookup_new_name (cid : Int) (n₂ : String) (dir : Directory)
    (h2 : ∀ c ∈ dir, c.chat_id ≠ cid → nameKey c.name ≠ nameKey n₂) :
    get_contact_by_name n₂ (upsert_contact cid n₂ dir) = some (cid, n₂) := by
  unfold get_contact_by_name upsert_contact
  by_cases h : dir.any (fun c => decide (c.chat_id = cid))
  · rw [if_pos h]
    rw [find_map_upd cid n₂ dir h2 h]
    rfl
  · rw [if_neg h]
    have hall : ∀ c ∈ dir, nameKey c.name ≠ nameKey n₂ := by
      intro c hc
      refine h2 c hc ?_
      intro hcontra
      exact absurd (List.any_eq_true.mpr ⟨c, hc, decide_eq_true hcontra⟩) h
    rw [find_append_new cid n₂ dir hall]
    rfl

theorem lookup_old_name (cid : Int) (n₁ n₂ : String) (dir : Directory)
    (h1 : ∀ c ∈ dir, c.chat_id ≠ cid → nameKey c.name ≠ nameKey n₁)
    (h12 : nameKey n₁ ≠ nameKey n₂) :
    get_contact_by_name n₁ (upsert_contact cid n₂ dir) = none := by
  unfold get_contact_by_name
  rw [List.find?_eq_none.mpr]
  · rfl
  · intro c hc
    rcases mem_upsert cid n₂ dir c hc with ⟨_, hname⟩ | ⟨hmem, hne⟩
    · rw [hname]
      simpa using Ne.symm h12
    · simpa using h1 c hmem hne

/-! ## Claims -/
/-- Claim C1: when a recurring reminder's callback fires, the persisted new
`fire_at` is exactly the old `fire_at` plus `repeat_interval` minutes, and the
persisted store after delivery is independent of the wall-clock instant at
which the callback ran. -/
theorem spec_c1 (now : Int) (db : DB) (jobs : List Job) (r : Reminder) (k : Int)
    (hk : r.repeat_interval_minutes = some k) (hk0 : k ≠ 0)
    (hget : get_reminder r.reminder_id db = some r) :
    get_reminder r.reminder_id (send_reminder now db jobs r).1 =
      some { r with remind_at := r.remind_at + 60 * k }
    ∧ ∀ now2 : Int,
        (send_reminder now2 db jobs r).1 = (send_reminder now db jobs r).1 := by
  have hsend : ∀ n : Int, (send_reminder n db jobs r).1 =
      update_reminder_time r.reminder_id (r.remind_at + 60 * k) db := by
    intro n
    simp [send_reminder, hk, hk0]
  refine ⟨?_, fun now2 => by rw [hsend now2, hsend now]⟩
  rw [hsend now, get_reminder_update, hget]
  rfl

theorem spec_c1_witness :
    get_reminder c1_r.reminder_id (send_reminder 1234 c1_db [] c1_r).1 =
      some ⟨1, 7, 7, 2800, "w", some 30⟩
    ∧ (send_reminder 99 c1_db [] c1_r).1 = (send_reminder 1234 c1_db [] c1_r).1 := by
  have h := spec_c1 1234 c1_db [] c1_r 30 rfl (by decide) (by decide)
  exact ⟨by rw [h.1]; decide, h.2 99⟩

/-- Claim C2: every create-reminder command (`/remindme`, `/repeatme`,
`/remind`, `/repeat`) whose requested fire time is not strictly after the
clock at validation is rejected with the rejection reply, and the store and
job queue are unchanged. -/
theorem spec_c2 (adminId chat_id : Int) (name : String) (k t now : Int)
    (raw msg : String) (dir : Directory) (ct : Int × String) (db : DB)
    (jobs : List Job)
    (hmsg : ensure_message raw = some msg)
    (ht : t ≤ now)
    (hk : 0 < k)
    (hct : get_contact_by_name name dir = some ct)
    (hadm : is_admin adminId chat_id = true) :
    remindme chat_id (some t) raw now db jobs = (db, jobs, msg_past)
    ∧ repeatme chat_id (some k) (some t) raw now db jobs = (db, jobs, msg_past)
    ∧ remind_other adminId chat_id name (some t) raw now dir db jobs =
        (db, jobs, msg_past)
    ∧ repeat_other adminId chat_id name (some k) (some t) raw now dir db jobs =
        (db, jobs, msg_past) := by
  have hval : validate_future t now = false := by
    simp only [validate_future, decide_eq_false_iff_not]
    omega
  have hkle : ¬ k ≤ 0 := by omega
  refine ⟨?_, ?_, ?_, ?_⟩
  · simp [remindme, hmsg, hval]
  · simp [repeatme, hkle, hmsg, hval]
  · simp [remind_other, hadm, hmsg, hct, hval]
  · simp [repeat_other, hadm, hkle, hmsg, hct, hval]

theorem spec_c2_witness :
    remindme 7 (some 100) "call mom" 100 c2_db [] = (c2_db, [], msg_past)
    ∧ repeatme 7 (some 5) (some 100) "call mom" 100 c2_db [] =
        (c2_db, [], msg_past)
    ∧ remind_other 7 7 "ann" (some 100) "call mom" 100 c2_dir c2_db [] =
        (c2_db, [], msg_past)
    ∧ repeat_other 7 7 "ann" (some 5) (some 100) "call mom" 100 c2_dir c2_db [] =
        (c2_db, [], msg_past) :=
  spec_c2 7 7 "ann" 5 100 100 "call mom" "call mom" c2_dir (3, "ann") c2_db []
    (by decide) (by decide) (by decide) (by decide) (by decide)

/-- Claim C3: a `/cancelme` invocation by a chat id that is not the creator
(and not the admin) is rejected with the not-found reply, the store is
unchanged, and the reminder remains present. -/
theorem spec_c3 (adminId chat_id : Int) (reminder_id : Nat) (r : Reminder)
    (db : DB)
    (hget : get_reminder reminder_id db = some r)
    (hown : chat_id ≠ r.creator_chat_id)
    (_hadm : is_admin adminId chat_id = false) :
    cancelme chat_id reminder_id db = (db, msg_not_found)
    ∧ get_reminder reminder_id (cancelme chat_id reminder_id db).1 = some r := by
  have hne : r.creator_chat_id ≠ chat_id := Ne.symm hown
  have h1 : cancelme chat_id reminder_id db = (db, msg_not_found) := by
    simp [cancelme, hget, hne]
  exact ⟨h1, by rw [h1]; exact hget⟩

theorem spec_c3_witness :
    cancelme 2 4 c3_db = (c3_db, msg_not_found)
    ∧ get_reminder 4 (cancelme 2 4 c3_db).1 = some c3_r :=
  spec_c3 9 2 4 c3_r c3_db (by decide) (by decide) (by decide)

/-- Claim C4 exhibit: a recurring reminder whose store record was deleted
before its callback fired.  The fired callback leaves the store unchanged
(the UPDATE on the absent id is a no-op), but it still re-registers a
callback named by the id, with the advanced fire time — it does not treat
the absent id as cancelled. -/
theorem spec_c4 :
    (send_reminder 1000 c4_db [] c4_r).1 = c4_db
    ∧ (send_reminder 1000 c4_db [] c4_r).2 =
        [⟨5, 600, ⟨5, 1, 1, 1600, "hi", some 10⟩⟩]
    ∧ get_reminder 5 c4_db = none := by decide

/-- Claim C5: `delete_reminder` never errs: it removes exactly the rows with
the given id, preserves every other row and the id sequence, and is a strict
no-op when the id is absent. -/
theorem spec_c5 (db : DB) (rid : Nat) :
    (∀ r ∈ (delete_reminder rid db).rows, r.reminder_id ≠ rid)
    ∧ (∀ r ∈ db.rows, r.reminder_id ≠ rid → r ∈ (delete_reminder rid db).rows)
    ∧ (delete_reminder rid db).nextId = db.nextId
    ∧ ((∀ r ∈ db.rows, r.reminder_id ≠ rid) → delete_reminder rid db = db) := by
  refine ⟨?_, ?_, rfl, ?_⟩
  · intro r hr
    have := (List.mem_filter.mp hr).2
    simpa using this
  · intro r hr hne
    exact List.mem_filter.mpr ⟨hr, by simpa using hne⟩
  · intro hall
    unfold delete_reminder
    have : db.rows.filter (fun r => decide (r.reminder_id ≠ rid)) = db.rows :=
      List.filter_eq_self.mpr (fun r hr => by simpa using hall r hr)
    rw [this]

theorem spec_c5_witness : delete_reminder 7 c5_db = c5_db :=
  (spec_c5 c5_db 7).2.2.2 (by decide)

/-- Claim C6: arming computes delay = fire_at - now; a nonpositive delay
registers nothing and changes nothing, a positive delay registers exactly one
callback keyed by the reminder id with that delay. -/
theorem spec_c6 (now : Int) (jobs : List Job) (r : Reminder) :
    (r.remind_at - now ≤ 0 → schedule_reminder_job now jobs r = jobs)
    ∧ (0 < r.remind_at - now →
        schedule_reminder_job now jobs r =
          jobs ++ [⟨r.reminder_id, r.remind_at - now, r⟩]) := by
  constructor
  · intro h
    simp [schedule_reminder_job, h]
  · intro h
    have h2 : ¬ r.remind_at - now ≤ 0 := by omega
    simp [schedule_reminder_job, h2]

theorem spec_c6_witness :
    schedule_reminder_job 5 [] c6_past = []
    ∧ schedule_reminder_job 5 [] c6_fut = [⟨2, 4, c6_fut⟩] :=
  ⟨(spec_c6 5 [] c6_past).1 (by decide),
   by rw [(spec_c6 5 [] c6_fut).2 (by decide)]; decide⟩

/-- Claim C7: at startup (with a single clock instant for the load and the
armings) recovery arms exactly one callback per stored reminder with
fire_at > now, keyed by its id, with delay fire_at - now; rows with
fire_at <= now are not armed. -/
theorem spec_c7 (now : Int) (db : DB) :
    on_startup now now db [] = (load_future_reminders now db).map
      (fun r => (⟨r.reminder_id, r.remind_at - now, r⟩ : Job))
    ∧ (on_startup now now db []).length =
        (db.rows.filter (fun r => decide (now < r.remind_at))).length
    ∧ ∀ j ∈ on_startup now now db [], j.name = j.data.reminder_id
        ∧ j.delay = j.data.remind_at - now ∧ now < j.data.remind_at := by
  refine ⟨on_startup_eq_map now db, ?_, ?_⟩
  · rw [on_startup_eq_map now db, List.length_map]
    exact (isortBy_perm _ _).length_eq
  · intro j hj
    rw [on_startup_eq_map now db] at hj
    rcases List.mem_map.mp hj with ⟨r, hr, hreq⟩
    have hfut := ((mem_load_future now db r).mp hr).2
    rw [← hreq]
    exact ⟨rfl, rfl, hfut⟩

theorem spec_c7_witness :
    on_startup 0 0 c7_db [] = (load_future_reminders 0 c7_db).map
      (fun r => (⟨r.reminder_id, r.remind_at - 0, r⟩ : Job))
    ∧ (on_startup 0 0 c7_db []).length =
        (c7_db.rows.filter (fun r => decide ((0:Int) < r.remind_at))).length :=
  ⟨(spec_c7 0 c7_db).1, (spec_c7 0 c7_db).2.1⟩

/-- Claim C8 counterexample: chat 1 registered as "bob"; chat 2 upserts name
"x" and then "Bob".  Lookup of the new name "Bob" returns contact 1 (the
fetchone scan hits the older row with the case-equal name first), not
contact 2, although lookup of the old name "x" does fail. -/
theorem spec_c8_counterexample :
    get_contact_by_name "Bob" c8_dir = some (1, "bob")
    ∧ get_contact_by_name "Bob" c8_dir ≠ some (2, "Bob")
    ∧ get_contact_by_name "x" c8_dir = none := by decide

/-- Claim C8 as amended: after upserting n1 then n2 for one chat id, lookup
of n2 returns that contact and lookup of n1 fails — provided no other contact
holds a name case-insensitively equal to n1 or to n2, and n1 and n2 differ
case-insensitively. -/
theorem spec_c8 (dir : Directory) (cid : Int) (n₁ n₂ : String)
    (h1 : ∀ c ∈ dir, c.chat_id ≠ cid → nameKey c.name ≠ nameKey n₁)
    (h2 : ∀ c ∈ dir, c.chat_id ≠ cid → nameKey c.name ≠ nameKey n₂)
    (h12 : nameKey n₁ ≠ nameKey n₂) :
    get_contact_by_name n₂ (upsert_contact cid n₂ (upsert_contact cid n₁ dir)) =
      some (cid, n₂)
    ∧ get_contact_by_name n₁ (upsert_contact cid n₂ (upsert_contact cid n₁ dir)) =
      none := by
  rw [upsert_upsert]
  exact ⟨lookup_new_name cid n₂ dir h2, lookup_old_name cid n₁ n₂ dir h1 h12⟩

theorem spec_c8_witness :
    get_contact_by_name "Eve"
      (upsert_contact 2 "Eve" (upsert_contact 2 "Alice" c8w_dir)) = some (2, "Eve")
    ∧ get_contact_by_name "Alice"
      (upsert_contact 2 "Eve" (upsert_contact 2 "Alice" c8w_dir)) = none :=
  spec_c8 c8w_dir 2 "Alice" "Eve" (by decide) (by decide) (by decide)

/-- Claim C9: in every reachable state of the scheduler, armed callbacks have
pairwise distinct names, so at most one armed callback exists per reminder
id. -/
theorem spec_c9 (s : SysState) (hs : Reachable s) :
    s.jobs.Pairwise (fun a b => a.name ≠ b.name)
    ∧ ∀ i : Nat, (s.jobs.filter (fun j => decide (j.name = i))).length ≤ 1 := by
  have hinv := reachable_inv s hs
  exact ⟨hinv.2.2.1, fun i => pairwise_name_filter_le_one s.jobs hinv.2.2.1 i⟩

theorem spec_c9_witness :
    c9_s1.jobs.Pairwise (fun a b => a.name ≠ b.name)
    ∧ ∀ i : Nat, (c9_s1.jobs.filter (fun j => decide (j.name = i))).length ≤ 1 :=
  spec_c9 c9_s1
    (Relation.ReflTransGen.single (Step.create 0 1 1 50 "hi" none initState))

/-- Claim C10: for field-valid UTC datetimes, bytewise order of the
`isoformat` strings (with or without fractional seconds) coincides with
chronological order, so the string-based `list_future` query equals its
datetime-based specification. -/
theorem spec_c10 (a b now : PyDateTime) (rows : List StoredReminder)
    (ha : validDT a = true) (hb : validDT b = true)
    (hnow : validDT now = true)
    (hrows : ∀ r ∈ rows, validDT r.remind_at = true) :
    lexLt (isoChars a) (isoChars b) = chronLt a b
    ∧ load_future_by_string now rows = load_future_by_datetime now rows := by
  refine ⟨isoChars_lt_eq_chronLt a b ha hb, ?_⟩
  unfold load_future_by_string load_future_by_datetime
  have hfilt : rows.filter
      (fun r => lexLt (isoChars now) (isoChars r.remind_at))
      = rows.filter (fun r => chronLt now r.remind_at) :=
    List.filter_congr
      (fun r hr => isoChars_lt_eq_chronLt now r.remind_at hnow (hrows r hr))
  rw [hfilt]
  apply isortBy_congr
  intro r₁ hr₁ r₂ hr₂
  have hv₁ := hrows r₁ (List.mem_of_mem_filter hr₁)
  have hv₂ := hrows r₂ (List.mem_of_mem_filter hr₂)
  rw [isoChars_lt_eq_chronLt r₂.remind_at r₁.remind_at hv₂ hv₁]

theorem spec_c10_witness :
    lexLt (isoChars c10_t1) (isoChars c10_t2) = chronLt c10_t1 c10_t2
    ∧ load_future_by_string c10_t2 c10_rows =
        load_future_by_datetime c10_t2 c10_rows :=
  spec_c10 c10_t1 c10_t2 c10_t2 c10_rows (by decide) (by decide) (by decide)
    (by decide)
